import Mathlib

/-!
# Verification of the sudojo_solver_client package

A shallow embedding of the TypeScript sources of the sudojo_solver_client
repository, together with proofs of its specified behaviour.

Embedded components:
* the custom query-string encoder createURLSearchParams of
  src/SudojoSolverClient.ts (append events, sorted-key rendering,
  no percent-escaping);
* createApiConfig, buildUrl and the request/response classification of
  the SudojoSolverClient class (solve, validate, generate);
* the hook layer: the query-key factory of src/hooks/query-keys.ts, the
  STALE_TIMES constants of src/hooks/query-config.ts, and the useQuery
  arguments built by src/hooks/use-solver.ts.
-/

/-! ## JavaScript string order

Object.keys(params).sort() sorts the keys with the default JavaScript
comparator, lexicographic by UTF-16 code units.  A Lean Char is a Unicode
code point; on the basic multilingual plane (in particular on the ASCII
keys this client ever appends) code-unit order and code-point order
coincide, so lexicographic comparison of the character lists is a faithful
model of the JavaScript sort.
-/

/-- Lexicographic order on character lists, modelling the default
JavaScript string comparator used by Object.keys(params).sort(). -/
def lexLe : List Char → List Char → Bool
  | [], _ => true
  | _ :: _, [] => false
  | a :: as, b :: bs =>
    if a < b then true
    else if b < a then false
    else lexLe as bs

/-- The key order of the encoder output: lexicographic on characters. -/
def keyLe (s t : String) : Prop := lexLe s.data t.data = true

instance : DecidableRel keyLe := fun s t =>
  inferInstanceAs (Decidable (lexLe s.data t.data = true))

/-! ## The query encoder (createURLSearchParams)

The builder keeps a mutable record mapping each key to the array of values
pushed for it.  We model the builder state as the list of append events in
call order; the record's array for a key is recovered by valuesFor, and the
record's key set by keysOf.
-/

/-- Builder state: the (key, value) append events, in call order. -/
abbrev Params := List (String × String)

/-- Boolean test selecting the append events of one key. -/
def hasKey (k : String) : String × String → Bool := fun p => decide (p.1 = k)

/-- The array params[key]: the values appended for a key, in append
order (each append pushes onto the end of the array). -/
def valuesFor (ps : Params) (k : String) : List String :=
  (ps.filter (hasKey k)).map Prod.snd

/-- Object.keys(params): the distinct keys of the record.  The order of
this list is irrelevant because toString sorts it. -/
def keysOf (ps : Params) : List String := (ps.map Prod.fst).dedup

/-- Object.keys(params).sort() in toString. -/
def sortedKeys (ps : Params) : List String :=
  List.insertionSort keyLe (keysOf ps)

/-- The toString method of createURLSearchParams: keys sorted, each key's
values rendered as key=value in append order, segments joined with an
ampersand, and no URL escaping anywhere. -/
def paramsToString (ps : Params) : String :=
  String.intercalate "&"
    ((sortedKeys ps).flatMap fun k => (valuesFor ps k).map fun v => k ++ "=" ++ v)

/-- Plain rendering of a pair list as key=value segments joined with an
ampersand, in the order given.  Used to state what the encoder output is a
rendering of. -/
def renderPairs (l : Params) : String :=
  String.intercalate "&" (l.map fun p => p.1 ++ "=" ++ p.2)

/-- The pair list the encoder renders: for each key of the sorted key
list in turn, the append events of that key in their original order. -/
def gatherByKey (ps : Params) : List String → Params
  | [] => []
  | k :: ks => ps.filter (hasKey k) ++ gatherByKey ps ks

/-! ## API configuration and URL building -/

/-- ClientConfig of src/types.ts. -/
structure ClientConfig where
  baseUrl : String
  timeout : Option Nat

/-- The ENDPOINTS record of createApiConfig. -/
structure Endpoints where
  SOLVE : String
  VALIDATE : String
  GENERATE : String

/-- The configuration object returned by createApiConfig. -/
structure ApiConfig where
  BASE_URL : String
  ENDPOINTS : Endpoints
  DEFAULT_HEADERS : List (String × String)

/-- config.baseUrl.replace of the trailing-slash regex by the empty
string: all trailing slash characters are removed. -/
def stripTrailingSlashes (s : String) : String :=
  String.mk ((s.data.reverse.dropWhile fun c => decide (c = '/')).reverse)

/-- createApiConfig of src/SudojoSolverClient.ts. -/
def createApiConfig (config : ClientConfig) : ApiConfig :=
  { BASE_URL := stripTrailingSlashes config.baseUrl
    ENDPOINTS :=
      { SOLVE := "/api/solve"
        VALIDATE := "/api/validate"
        GENERATE := "/api/generate" }
    DEFAULT_HEADERS :=
      [("Content-Type", "application/json"), ("Accept", "application/json")] }

/-- A value of the params record passed to buildUrl: a string, a boolean,
or undefined. -/
inductive ParamValue where
  | str (s : String)
  | bool (b : Bool)
  | undef
deriving DecidableEq

/-- String(value) applied to a boolean. -/
def boolString : Bool → String
  | true => "true"
  | false => "false"

/-- An optional field of an options object, as a ParamValue. -/
def optionToParam (f : α → ParamValue) : Option α → ParamValue
  | none => ParamValue.undef
  | some a => f a

/-- The loop of buildUrl over Object.entries(params): entries whose value
is undefined are skipped, the rest are appended with String(value). -/
def collectParams : List (String × ParamValue) → Params
  | [] => []
  | (_, ParamValue.undef) :: rest => collectParams rest
  | (k, ParamValue.str s) :: rest => (k, s) :: collectParams rest
  | (k, ParamValue.bool b) :: rest => (k, boolString b) :: collectParams rest

/-- buildUrl of SudojoSolverClient: base URL, endpoint, and the encoded
query behind a question mark when the query is nonempty. -/
def buildUrl (cfg : ApiConfig) (endpoint : String)
    (params : List (String × ParamValue)) : String :=
  cfg.BASE_URL ++ endpoint ++
    (if paramsToString (collectParams params) = "" then ""
     else "?" ++ paramsToString (collectParams params))

/-! ## Operations and their parameters -/

/-- SolveOptions of src/types.ts; optional fields are Options. -/
structure SolveOptions where
  original : String
  user : String
  autoPencilmarks : Option Bool
  pencilmarks : Option String
  filters : Option String
deriving DecidableEq

/-- ValidateOptions of src/types.ts. -/
structure ValidateOptions where
  original : String
deriving DecidableEq

/-- GenerateOptions of src/types.ts. -/
structure GenerateOptions where
  symmetrical : Option Bool
deriving DecidableEq

/-- The params record built by the solve method, in source order. -/
def solveParams (o : SolveOptions) : List (String × ParamValue) :=
  [("original", ParamValue.str o.original),
   ("user", ParamValue.str o.user),
   ("autopencilmarks", optionToParam ParamValue.bool o.autoPencilmarks),
   ("pencilmarks", optionToParam ParamValue.str o.pencilmarks),
   ("filters", optionToParam ParamValue.str o.filters)]

/-- The params record built by the validate method. -/
def validateParams (o : ValidateOptions) : List (String × ParamValue) :=
  [("original", ParamValue.str o.original)]

/-- The params record built by the generate method. -/
def generateParams (o : GenerateOptions) : List (String × ParamValue) :=
  [("symmetrical", optionToParam ParamValue.bool o.symmetrical)]

/-- One of the three public operations, with its options. -/
inductive Operation where
  | solve (o : SolveOptions)
  | validate (o : ValidateOptions)
  | generate (o : GenerateOptions)
deriving DecidableEq

/-- The endpoint the operation reads from this.config.ENDPOINTS. -/
def endpointOf (cfg : ApiConfig) : Operation → String
  | Operation.solve _ => cfg.ENDPOINTS.SOLVE
  | Operation.validate _ => cfg.ENDPOINTS.VALIDATE
  | Operation.generate _ => cfg.ENDPOINTS.GENERATE

/-- The params record the operation passes to buildUrl. -/
def operationParams : Operation → List (String × ParamValue)
  | Operation.solve o => solveParams o
  | Operation.validate o => validateParams o
  | Operation.generate o => generateParams o

/-- The query string of an operation, before the question mark. -/
def operationQuery (op : Operation) : String :=
  paramsToString (collectParams (operationParams op))

/-- The full URL an operation passes to this.request. -/
def clientUrl (config : ClientConfig) (op : Operation) : String :=
  buildUrl (createApiConfig config) (endpointOf (createApiConfig config) op)
    (operationParams op)

/-- The single outbound GET of an operation: the URL together with the
headers the constructor copied from DEFAULT_HEADERS. -/
structure GetRequest where
  url : String
  headers : List (String × String)
deriving DecidableEq

/-- The GET issued by networkClient.get inside this.request. -/
def clientRequest (config : ClientConfig) (op : Operation) : GetRequest :=
  { url := clientUrl config op
    headers := (createApiConfig config).DEFAULT_HEADERS }

/-! ## Transport responses and outcome classification -/

/-- The data field of a transport response: absent (undefined), null, or
a present parsed body. -/
inductive BodySlot (α : Type) where
  | undef
  | null
  | val (a : α)
deriving DecidableEq

/-- The response object returned by networkClient.get. -/
structure NetworkResponse (α : Type) where
  ok : Bool
  status : Nat
  data : BodySlot α
deriving DecidableEq

/-- Outcome of this.request: the returned body, a thrown SudojoApiError
(with its message template, statusCode and raw response body), or the
thrown generic no-data Error (which carries no status code). -/
inductive RequestResult (α : Type) where
  | success (value : α)
  | apiError (message : String) (statusCode : Nat) (response : BodySlot α)
  | noDataError (message : String)
deriving DecidableEq

/-- The request method of SudojoSolverClient: not-ok responses throw a
SudojoApiError carrying the status and raw data; ok responses with an
undefined or null body throw the generic no-data error; otherwise the
body is returned verbatim. -/
def request (resp : NetworkResponse α) : RequestResult α :=
  if resp.ok = false then
    RequestResult.apiError
      ("API request failed with status " ++ toString resp.status)
      resp.status resp.data
  else
    match resp.data with
    | BodySlot.undef => RequestResult.noDataError "No data received from server"
    | BodySlot.null => RequestResult.noDataError "No data received from server"
    | BodySlot.val d => RequestResult.success d

/-- A full operation call: build the request, hand it to the injected
transport, classify the response.  The transport is a function so that
one theorem quantifies over every possible transport behaviour. -/
def runOperation (config : ClientConfig) (op : Operation)
    (transport : GetRequest → NetworkResponse α) : RequestResult α :=
  request (transport (clientRequest config op))

/-! ## Typed response envelopes (src/types.ts) -/

/-- AreaType of src/types.ts. -/
inductive AreaType where
  | row
  | column
  | block
deriving DecidableEq

/-- CellColor of src/types.ts. -/
inductive CellColor where
  | none
  | clear
  | gray
  | blue
  | green
  | yellow
  | orange
  | red
  | white
  | black
deriving DecidableEq

/-- ErrorCode of src/types.ts as an enumeration. -/
inductive ErrorCode where
  | unknown
  | autoPencilmarksRequired
  | cannotSolve
  | multipleSolutions
deriving DecidableEq

/-- The string value of each ErrorCode enum member. -/
def errorCodeValue : ErrorCode → String
  | ErrorCode.unknown => "unknown_error"
  | ErrorCode.autoPencilmarksRequired => "auto_pencilmarks_required"
  | ErrorCode.cannotSolve => "cannot_solve"
  | ErrorCode.multipleSolutions => "multiple_solutions"

/-- Area of src/types.ts. -/
structure Area where
  type : AreaType
  color : CellColor
  index : Nat
deriving DecidableEq

/-- CellActions of src/types.ts. -/
structure CellActions where
  select : String
  unselect : String
  add : String
  remove : String
  highlight : String
deriving DecidableEq

/-- Cell of src/types.ts. -/
structure Cell where
  row : Nat
  column : Nat
  color : CellColor
  fill : Bool
  actions : CellActions
deriving DecidableEq

/-- Pencilmark of src/types.ts. -/
structure Pencilmark where
  auto : Bool
  pencilmarks : String
deriving DecidableEq

/-- Board of src/types.ts; nullable fields become Options. -/
structure Board where
  original : String
  user : Option String
  solution : Option String
  pencilmarks : Option Pencilmark
deriving DecidableEq

/-- BoardPayload of src/types.ts. -/
structure BoardPayload where
  level : Nat
  techniques : Nat
  board : Board
deriving DecidableEq

/-- HintStep of src/types.ts. -/
structure HintStep where
  title : String
  text : String
  areas : Option (List Area)
  cells : Option (List Cell)
deriving DecidableEq

/-- HintsPayload of src/types.ts. -/
structure HintsPayload where
  level : Nat
  techniques : Nat
  steps : List HintStep
deriving DecidableEq

/-- BoardDataPayload of src/types.ts. -/
structure BoardDataPayload where
  board : BoardPayload
deriving DecidableEq

/-- HintDataPayload of src/types.ts (BoardDataPayload plus hints). -/
structure HintDataPayload where
  board : BoardPayload
  hints : Option HintsPayload
deriving DecidableEq

/-- ErrorPayload of src/types.ts. -/
structure ErrorPayload where
  code : ErrorCode
  message : String
deriving DecidableEq

/-- SudokuResult of src/types.ts: the response envelope. -/
structure SudokuResult (T : Type) where
  success : Bool
  error : Option ErrorPayload
  data : Option T
deriving DecidableEq

/-- SolveResponse of src/types.ts. -/
abbrev SolveResponse := SudokuResult HintDataPayload

/-- ValidateResponse of src/types.ts. -/
abbrev ValidateResponse := SudokuResult BoardDataPayload

/-- GenerateResponse of src/types.ts. -/
abbrev GenerateResponse := SudokuResult BoardDataPayload

/-! ## Hook layer: query keys, stale times, useQuery arguments -/

/-- An element of a TanStack query key produced by the factory of
src/hooks/query-keys.ts: a string literal, the solve options object, or
the (possibly absent) generate options object. -/
inductive QueryKeyPart where
  | str (s : String)
  | solveOptions (o : SolveOptions)
  | generateOptions (o : Option GenerateOptions)
deriving DecidableEq

/-- solverBase of src/hooks/query-keys.ts. -/
def solverBase : List QueryKeyPart := [QueryKeyPart.str "sudojo-solver"]

/-- queryKeys.solver.solve of src/hooks/query-keys.ts. -/
def queryKeys_solver_solve (o : SolveOptions) : List QueryKeyPart :=
  solverBase ++ [QueryKeyPart.str "solve", QueryKeyPart.solveOptions o]

/-- queryKeys.solver.validate of src/hooks/query-keys.ts. -/
def queryKeys_solver_validate (original : String) : List QueryKeyPart :=
  solverBase ++ [QueryKeyPart.str "validate", QueryKeyPart.str original]

/-- queryKeys.solver.generate of src/hooks/query-keys.ts; the options
argument is itself optional. -/
def queryKeys_solver_generate (o : Option GenerateOptions) : List QueryKeyPart :=
  solverBase ++ [QueryKeyPart.str "generate", QueryKeyPart.generateOptions o]

/-- getServiceKeys of src/hooks/query-keys.ts: returns
queryKeys.solver.all(), which is solverBase. -/
def getServiceKeys : List QueryKeyPart := solverBase

/-- The STALE_TIMES record of src/hooks/query-config.ts. -/
structure StaleTimes where
  SOLVE : Nat
  VALIDATE : Nat
  GENERATE : Nat

/-- STALE_TIMES of src/hooks/query-config.ts, in milliseconds. -/
def STALE_TIMES : StaleTimes :=
  { SOLVE := 1 * 60 * 1000
    VALIDATE := 10 * 60 * 1000
    GENERATE := 0 }

/-- The queryKey and default staleTime a hook passes to useQuery (before
any caller-supplied queryOptions are spread over them). -/
structure UseQueryArgs where
  queryKey : List QueryKeyPart
  staleTime : Nat
deriving DecidableEq

/-- useSolverSolve of src/hooks/use-solver.ts: key from the five solve
parameters, staleTime STALE_TIMES.SOLVE. -/
def useSolverSolve (o : SolveOptions) : UseQueryArgs :=
  { queryKey := queryKeys_solver_solve
      { original := o.original
        user := o.user
        autoPencilmarks := o.autoPencilmarks
        pencilmarks := o.pencilmarks
        filters := o.filters }
    staleTime := STALE_TIMES.SOLVE }

/-- useSolverValidate of src/hooks/use-solver.ts. -/
def useSolverValidate (o : ValidateOptions) : UseQueryArgs :=
  { queryKey := queryKeys_solver_validate o.original
    staleTime := STALE_TIMES.VALIDATE }

/-- useSolverGenerate of src/hooks/use-solver.ts: the factory is always
called with an options object built from the hook's options. -/
def useSolverGenerate (o : GenerateOptions) : UseQueryArgs :=
  { queryKey := queryKeys_solver_generate (some { symmetrical := o.symmetrical })
    staleTime := STALE_TIMES.GENERATE }

/-! ## Properties of the key order -/

/-- The key order is reflexive. -/
theorem lexLe_refl (as : List Char) : lexLe as as = true := by
  induction as with
  | nil => rfl
  | cons a as ih => simp [lexLe, lt_irrefl, ih]

/-- The key order is total. -/
theorem lexLe_total (as : List Char) : ∀ bs, lexLe as bs = true ∨ lexLe bs as = true := by
  induction as with
  | nil => intro bs; exact Or.inl rfl
  | cons a as ih =>
    intro bs
    cases bs with
    | nil => exact Or.inr rfl
    | cons b bs =>
      rcases lt_trichotomy a b with h | h | h
      · exact Or.inl (by simp [lexLe, h])
      · subst h
        rcases ih bs with h2 | h2
        · exact Or.inl (by simp [lexLe, lt_irrefl, h2])
        · exact Or.inr (by simp [lexLe, lt_irrefl, h2])
      · exact Or.inr (by simp [lexLe, h])

/-- The key order is transitive. -/
theorem lexLe_trans (as : List Char) :
    ∀ bs cs, lexLe as bs = true → lexLe bs cs = true → lexLe as cs = true := by
  induction as with
  | nil => intro bs cs _ _; rfl
  | cons a as ih =>
    intro bs cs h1 h2
    cases bs with
    | nil => simp [lexLe] at h1
    | cons b bs =>
      cases cs with
      | nil => simp [lexLe] at h2
      | cons c cs =>
        rcases lt_trichotomy a b with hab | hab | hab
        · rcases lt_trichotomy b c with hbc | hbc | hbc
          · simp [lexLe, lt_trans hab hbc]
          · subst hbc; simp [lexLe, hab]
          · simp [lexLe, lt_asymm hbc, hbc] at h2
        · subst hab
          simp only [lexLe, lt_irrefl, if_false] at h1
          rcases lt_trichotomy a c with hac | hac | hac
          · simp [lexLe, hac]
          · subst hac
            simp only [lexLe, lt_irrefl, if_false] at h2 ⊢
            exact ih bs cs h1 h2
          · simp [lexLe, lt_asymm hac, hac] at h2
        · simp [lexLe, lt_asymm hab, hab] at h1

/-- The key order is antisymmetric. -/
theorem lexLe_antisymm (as : List Char) :
    ∀ bs, lexLe as bs = true → lexLe bs as = true → as = bs := by
  induction as with
  | nil =>
    intro bs _ h2
    cases bs with
    | nil => rfl
    | cons b bs => simp [lexLe] at h2
  | cons a as ih =>
    intro bs h1 h2
    cases bs with
    | nil => simp [lexLe] at h1
    | cons b bs =>
      rcases lt_trichotomy a b with hab | hab | hab
      · simp [lexLe, lt_asymm hab, hab] at h2
      · subst hab
        simp only [lexLe, lt_irrefl, if_false] at h1 h2
        rw [ih bs h1 h2]
      · simp [lexLe, lt_asymm hab, hab] at h1

instance : IsTotal String keyLe :=
  ⟨fun s t => lexLe_total s.data t.data⟩

instance : IsTrans String keyLe :=
  ⟨fun s t u => lexLe_trans s.data t.data u.data⟩

instance : IsAntisymm String keyLe :=
  ⟨fun s t h1 h2 => String.ext (lexLe_antisymm s.data t.data h1 h2)⟩

instance : IsRefl String keyLe :=
  ⟨fun s => lexLe_refl s.data⟩

/-! ## Structure of the encoder output -/

/-- The sorted key list has no duplicate keys. -/
theorem sortedKeys_nodup (ps : Params) : (sortedKeys ps).Nodup :=
  ((List.perm_insertionSort keyLe (keysOf ps)).symm).nodup
    (List.nodup_dedup (ps.map Prod.fst))

/-- The sorted key list is sorted in the key order. -/
theorem sortedKeys_sorted (ps : Params) : (sortedKeys ps).Sorted keyLe :=
  List.sorted_insertionSort keyLe (keysOf ps)

/-- Membership in the sorted key list is membership among appended keys. -/
theorem mem_sortedKeys {ps : Params} {k : String} :
    k ∈ sortedKeys ps ↔ k ∈ ps.map Prod.fst := by
  unfold sortedKeys keysOf
  rw [(List.perm_insertionSort keyLe _).mem_iff, List.mem_dedup]

/-- Gathering depends on the event list only through the per-key filters. -/
theorem gatherByKey_congr {ps qs : Params} :
    ∀ {ks : List String},
      (∀ k ∈ ks, ps.filter (hasKey k) = qs.filter (hasKey k)) →
      gatherByKey ps ks = gatherByKey qs ks := by
  intro ks
  induction ks with
  | nil => intro _; rfl
  | cons k ks ih =>
    intro h
    simp only [gatherByKey]
    rw [h k (List.mem_cons_self k ks),
      ih fun k' hk' => h k' (List.mem_cons_of_mem _ hk')]

/-- Every event gathered for a key list has its key in that list. -/
theorem key_mem_of_mem_gatherByKey {ps : Params} {p : String × String} :
    ∀ {ks : List String}, p ∈ gatherByKey ps ks → p.1 ∈ ks := by
  intro ks
  induction ks with
  | nil => intro h; simp [gatherByKey] at h
  | cons k ks ih =>
    intro h
    simp only [gatherByKey, List.mem_append] at h
    rcases h with h | h
    · have hp := (List.mem_filter.mp h).2
      simp only [hasKey, decide_eq_true_eq] at hp
      simp [hp]
    · exact List.mem_cons_of_mem _ (ih h)

/-- Gathering over a duplicate-free key list covering every event's key
is a permutation of the event list. -/
theorem gatherByKey_perm :
    ∀ (ks : List String) (ps : Params), ks.Nodup → (∀ p ∈ ps, p.1 ∈ ks) →
      (gatherByKey ps ks).Perm ps := by
  intro ks
  induction ks with
  | nil =>
    intro ps _ h
    cases ps with
    | nil => exact List.Perm.refl _
    | cons p l => exact absurd (h p (List.mem_cons_self p l)) (List.not_mem_nil _)
  | cons k ks ih =>
    intro ps hnd h
    have hknotin : k ∉ ks := (List.nodup_cons.mp hnd).1
    have hndtail : ks.Nodup := (List.nodup_cons.mp hnd).2
    have hfilters : ∀ k' ∈ ks,
        ps.filter (hasKey k') =
          (ps.filter fun p => !(hasKey k p)).filter (hasKey k') := by
      intro k' hk'
      rw [List.filter_filter]
      apply List.filter_congr
      intro p _
      by_cases hp : p.1 = k'
      · have hne : ¬ k' = k := by
          intro hh
          apply hknotin
          rw [← hh]
          exact hk'
        simp [hasKey, hp, hne]
      · simp [hasKey, hp]
    have hcover : ∀ p ∈ ps.filter (fun p => !(hasKey k p)), p.1 ∈ ks := by
      intro p hp
      have hmem := List.mem_filter.mp hp
      have h2 : ¬ p.1 = k := by
        have := hmem.2
        simpa [hasKey] using this
      rcases List.mem_cons.mp (h p hmem.1) with hcase | hcase
      · exact absurd hcase h2
      · exact hcase
    have hstep : gatherByKey ps (k :: ks) =
        ps.filter (hasKey k) ++
          gatherByKey (ps.filter fun p => !(hasKey k p)) ks := by
      show ps.filter (hasKey k) ++ gatherByKey ps ks = _
      rw [gatherByKey_congr hfilters]
    rw [hstep]
    exact (List.Perm.append_left _ (ih _ hndtail hcover)).trans
      (List.filter_append_perm (hasKey k) ps)

/-- Gathering over a sorted key list yields events sorted by key. -/
theorem gatherByKey_sorted {ps : Params} :
    ∀ {ks : List String}, ks.Sorted keyLe →
      ((gatherByKey ps ks).map Prod.fst).Sorted keyLe := by
  intro ks
  induction ks with
  | nil => intro _; exact List.sorted_nil
  | cons k ks ih =>
    intro hs
    have hhead := (List.sorted_cons.mp hs).1
    have htail := (List.sorted_cons.mp hs).2
    simp only [gatherByKey, List.map_append]
    refine List.pairwise_append.mpr ⟨?_, ih htail, ?_⟩
    · apply List.pairwise_of_forall_mem_list
      intro x hx y hy
      have hx' : x = k := by
        rcases List.mem_map.mp hx with ⟨p, hp, rfl⟩
        have := (List.mem_filter.mp hp).2
        simpa [hasKey] using this
      have hy' : y = k := by
        rcases List.mem_map.mp hy with ⟨p, hp, rfl⟩
        have := (List.mem_filter.mp hp).2
        simpa [hasKey] using this
      rw [hx', hy']
      exact lexLe_refl k.data
    · intro x hx y hy
      have hx' : x = k := by
        rcases List.mem_map.mp hx with ⟨p, hp, rfl⟩
        have := (List.mem_filter.mp hp).2
        simpa [hasKey] using this
      have hy' : y ∈ ks := by
        rcases List.mem_map.mp hy with ⟨p, hp, rfl⟩
        exact key_mem_of_mem_gatherByKey hp
      rw [hx']
      exact hhead y hy'

/-- Filtering the gathered list for one key recovers exactly that key's
events, provided the key list is duplicate-free. -/
theorem gatherByKey_filter {ps : Params} (k : String) :
    ∀ {ks : List String}, ks.Nodup →
      (gatherByKey ps ks).filter (hasKey k) =
        if k ∈ ks then ps.filter (hasKey k) else [] := by
  intro ks
  induction ks with
  | nil => intro _; simp [gatherByKey]
  | cons k0 ks ih =>
    intro hnd
    have hknotin : k0 ∉ ks := (List.nodup_cons.mp hnd).1
    have hndtail : ks.Nodup := (List.nodup_cons.mp hnd).2
    simp only [gatherByKey, List.filter_append]
    by_cases hk : k = k0
    · subst hk
      rw [List.filter_filter]
      have h1 : ps.filter (fun a => hasKey k a && hasKey k a) = ps.filter (hasKey k) := by
        apply List.filter_congr
        intro p _
        by_cases hp : p.1 = k <;> simp [hasKey, hp]
      rw [h1, ih hndtail, if_neg hknotin, List.append_nil,
        if_pos (List.mem_cons_self k ks)]
    · rw [List.filter_filter]
      have h1 : ps.filter (fun a => hasKey k a && hasKey k0 a) = [] := by
        rw [List.filter_eq_nil_iff]
        intro p _
        simp only [hasKey, Bool.and_eq_true, decide_eq_true_eq, not_and]
        intro hpk hpk0
        exact hk (hpk.symm.trans hpk0)
      rw [h1, List.nil_append, ih hndtail]
      by_cases hmem : k ∈ ks
      · rw [if_pos hmem, if_pos (List.mem_cons_of_mem _ hmem)]
      · rw [if_neg hmem, if_neg (by simp [List.mem_cons, hk, hmem])]

/-- The encoder output is the rendering of the gathered event list. -/
theorem paramsToString_eq_render (ps : Params) :
    paramsToString ps = renderPairs (gatherByKey ps (sortedKeys ps)) := by
  unfold paramsToString renderPairs
  congr 1
  generalize sortedKeys ps = ks
  induction ks with
  | nil => rfl
  | cons k ks ih =>
    simp only [List.flatMap_cons, gatherByKey, List.map_append]
    rw [ih]
    congr 1
    unfold valuesFor
    rw [List.map_map]
    apply List.map_congr_left
    intro p hp
    have hp1 : p.1 = k := by
      have := (List.mem_filter.mp hp).2
      simpa [hasKey] using this
    simp [Function.comp, hp1]

/-- Master description of the encoder output: it is the rendering of a
pair list that is a permutation of the append events, is sorted by key,
and preserves each key's append events in their original order. -/
theorem paramsToString_spec (ps : Params) :
    ∃ l : Params, ps.Perm l ∧ (l.map Prod.fst).Sorted keyLe ∧
      (∀ k, l.filter (hasKey k) = ps.filter (hasKey k)) ∧
      paramsToString ps = renderPairs l := by
  refine ⟨gatherByKey ps (sortedKeys ps), ?_, ?_, ?_, paramsToString_eq_render ps⟩
  · exact (gatherByKey_perm (sortedKeys ps) ps (sortedKeys_nodup ps)
      fun p hp => mem_sortedKeys.mpr (List.mem_map_of_mem Prod.fst hp)).symm
  · exact gatherByKey_sorted (sortedKeys_sorted ps)
  · intro k
    rw [gatherByKey_filter k (sortedKeys_nodup ps)]
    by_cases hk : k ∈ sortedKeys ps
    · rw [if_pos hk]
    · rw [if_neg hk, eq_comm, List.filter_eq_nil_iff]
      intro p hp
      simp only [hasKey, decide_eq_true_eq]
      intro hpk
      exact hk (mem_sortedKeys.mpr (hpk ▸ List.mem_map_of_mem Prod.fst hp))

/-- With no repeated key, each key's filter has at most one event. -/
theorem length_filter_le_one {ps : Params} (hnd : (ps.map Prod.fst).Nodup)
    (k : String) : (ps.filter (hasKey k)).length ≤ 1 := by
  induction ps with
  | nil => simp
  | cons p l ih =>
    have hnotin : p.1 ∉ l.map Prod.fst := (List.nodup_cons.mp (by simpa using hnd)).1
    have hnd' : (l.map Prod.fst).Nodup := (List.nodup_cons.mp (by simpa using hnd)).2
    rw [List.filter_cons]
    by_cases hp : hasKey k p = true
    · have hpk : p.1 = k := by simpa [hasKey] using hp
      have hnil : l.filter (hasKey k) = [] := by
        rw [List.filter_eq_nil_iff]
        intro q hq
        simp only [hasKey, decide_eq_true_eq]
        intro hqk
        exact hnotin (by rw [hpk, ← hqk]; exact List.mem_map_of_mem Prod.fst hq)
      simp [hp, hnil]
    · simp only [hp, if_false]
      exact ih hnd'

/-- A permutation of a list of length at most one is that list. -/
theorem perm_eq_of_length_le_one {l l' : Params} (h : l.Perm l')
    (hlen : l.length ≤ 1) : l = l' := by
  cases l with
  | nil =>
    have h0 : l'.length = 0 := by rw [← h.length_eq]; rfl
    exact (List.length_eq_zero.mp h0).symm
  | cons a t =>
    cases t with
    | nil => exact (List.perm_singleton.mp h.symm).symm
    | cons b t2 => simp at hlen

/-- Append sequences that are permutations of each other with no repeated
key encode to the identical string. -/
theorem paramsToString_perm_invariant {ps ps' : Params} (h : ps.Perm ps')
    (hnd : (ps.map Prod.fst).Nodup) :
    paramsToString ps = paramsToString ps' := by
  have hkeys : sortedKeys ps = sortedKeys ps' :=
    List.eq_of_perm_of_sorted
      (((List.perm_insertionSort keyLe (keysOf ps)).trans
          ((h.map Prod.fst).dedup)).trans
        (List.perm_insertionSort keyLe (keysOf ps')).symm)
      (sortedKeys_sorted ps) (sortedKeys_sorted ps')
  have hfilters : ∀ k ∈ sortedKeys ps,
      ps.filter (hasKey k) = ps'.filter (hasKey k) := fun k _ =>
    perm_eq_of_length_le_one (h.filter (hasKey k)) (length_filter_le_one hnd k)
  rw [paramsToString_eq_render ps, paramsToString_eq_render ps', ← hkeys,
    gatherByKey_congr hfilters]

/-- Sanity check: the worked example of the specification. -/
example : paramsToString [("user", "u"), ("original", "o")] = "original=o&user=u" := by
  decide

/-- Claim C1: the encoder output lists the key=value pairs sorted
lexicographically by key name independently of insertion order (append
sequences that are permutations of each other over distinct keys yield the
identical string), values of a repeated key keep their insertion order
among themselves, and with no pairs appended the result is the empty
string. -/
theorem claim_c1 :
    (∀ ps ps' : Params, ps.Perm ps' → (ps.map Prod.fst).Nodup →
        paramsToString ps = paramsToString ps') ∧
    (∀ ps : Params, ∃ l : Params, ps.Perm l ∧ (l.map Prod.fst).Sorted keyLe ∧
        (∀ k, l.filter (hasKey k) = ps.filter (hasKey k)) ∧
        paramsToString ps = renderPairs l) ∧
    paramsToString [] = "" :=
  ⟨fun _ _ h hnd => paramsToString_perm_invariant h hnd, paramsToString_spec, rfl⟩

/-- Witness for claim C1: two permuted append sequences over distinct
keys at concrete inputs. -/
theorem claim_c1_witness :
    paramsToString [("user", "u"), ("original", "o")] =
      paramsToString [("original", "o"), ("user", "u")] :=
  claim_c1.1 _ _ (by decide) (by decide)

/-- A one-element join of the intercalation. -/
theorem intercalate_amp_singleton (a : String) :
    String.intercalate "&" [a] = a := rfl

/-- A single appended pair is rendered as the literal text key=value. -/
theorem paramsToString_single (k v : String) :
    paramsToString [(k, v)] = k ++ "=" ++ v := by
  have h1 : sortedKeys [(k, v)] = [k] := by
    simp [sortedKeys, keysOf, List.insertionSort]
  have h2 : valuesFor [(k, v)] k = [v] := by
    simp [valuesFor, hasKey]
  unfold paramsToString
  rw [h1, List.flatMap_cons, List.flatMap_nil, List.append_nil, h2,
    List.map_cons, List.map_nil, intercalate_amp_singleton]

/-- Claim C2: appended values are emitted verbatim with no
percent-encoding, each pair as the literal text key=value joined with
ampersands; a pencilmarks value keeps its commas unescaped. -/
theorem claim_c2 :
    (∀ k v : String, paramsToString [(k, v)] = k ++ "=" ++ v) ∧
    (∀ ps : Params, ∃ l : Params, ps.Perm l ∧
        paramsToString ps =
          String.intercalate "&" (l.map fun p => p.1 ++ "=" ++ p.2)) ∧
    paramsToString [("pencilmarks", "123,456,789")] = "pencilmarks=123,456,789" := by
  refine ⟨paramsToString_single, ?_, by decide⟩
  intro ps
  obtain ⟨l, hperm, _, _, hrender⟩ := paramsToString_spec ps
  exact ⟨l, hperm, hrender⟩

/-! ## Outcome classification -/

/-- Claim C3: for every operation, a transport response with ok false
makes the call fail with the SudojoApiError whose statusCode equals the
response status, carrying the raw (possibly undefined) response body,
with the fixed message template including the status code. -/
theorem claim_c3 {α : Type} (config : ClientConfig) (op : Operation)
    (transport : GetRequest → NetworkResponse α)
    (h : (transport (clientRequest config op)).ok = false) :
    runOperation config op transport =
      RequestResult.apiError
        ("API request failed with status " ++
          toString (transport (clientRequest config op)).status)
        (transport (clientRequest config op)).status
        (transport (clientRequest config op)).data := by
  unfold runOperation request
  rw [h]
  simp

/-- Witness for claim C3: a 404 not-ok response on validate. -/
theorem claim_c3_witness :
    runOperation (α := Bool) { baseUrl := "http://localhost:5000", timeout := none }
      (Operation.validate { original := "123" })
      (fun _ => { ok := false
                  status := 404
                  data := BodySlot.undef }) =
      RequestResult.apiError "API request failed with status 404" 404
        BodySlot.undef := by
  have h := claim_c3 (α := Bool)
    { baseUrl := "http://localhost:5000", timeout := none }
    (Operation.validate { original := "123" })
    (fun _ => { ok := false
                status := 404
                data := BodySlot.undef }) rfl
  exact h.trans (by decide)

/-- Claim C4: for every operation, an ok transport response whose body is
undefined or null makes the call fail with the generic no-data error,
which carries no status code, regardless of the numeric status. -/
theorem claim_c4 {α : Type} (config : ClientConfig) (op : Operation)
    (transport : GetRequest → NetworkResponse α)
    (hok : (transport (clientRequest config op)).ok = true)
    (hdata : (transport (clientRequest config op)).data = BodySlot.undef ∨
      (transport (clientRequest config op)).data = BodySlot.null) :
    runOperation config op transport =
      RequestResult.noDataError "No data received from server" := by
  unfold runOperation request
  rw [hok]
  rcases hdata with h | h <;> rw [h] <;> simp

/-- Witness for claim C4: an ok response with undefined body on generate. -/
theorem claim_c4_witness :
    runOperation (α := Bool) { baseUrl := "http://localhost:5000", timeout := none }
      (Operation.generate { symmetrical := none })
      (fun _ => { ok := true
                  status := 200
                  data := BodySlot.undef }) =
      RequestResult.noDataError "No data received from server" :=
  claim_c4 _ _ _ rfl (Or.inl rfl)

/-- Claim C5: for every operation, an ok transport response with a
present body resolves and returns that body verbatim, with no local
validation of the success, error or data fields. -/
theorem claim_c5 {α : Type} (config : ClientConfig) (op : Operation)
    (transport : GetRequest → NetworkResponse α) (body : α)
    (hok : (transport (clientRequest config op)).ok = true)
    (hdata : (transport (clientRequest config op)).data = BodySlot.val body) :
    runOperation config op transport = RequestResult.success body := by
  unfold runOperation request
  rw [hok, hdata]
  simp

/-- Witness for claim C5: an envelope with success false and error code
cannot_solve is returned as a normal result. -/
theorem claim_c5_witness :
    runOperation (α := ValidateResponse)
        { baseUrl := "http://localhost:5000", timeout := none }
        (Operation.validate { original := "123" })
        (fun _ => { ok := true
                    status := 200
                    data := BodySlot.val
                      { success := false
                        error := some { code := ErrorCode.cannotSolve
                                        message := "nope" }
                        data := none } }) =
      RequestResult.success
        { success := false
          error := some { code := ErrorCode.cannotSolve
                          message := "nope" }
          data := none } ∧
    ({ success := false
       error := some { code := ErrorCode.cannotSolve
                       message := "nope" }
       data := none } : ValidateResponse).success = false ∧
    errorCodeValue ErrorCode.cannotSolve = "cannot_solve" :=
  ⟨claim_c5 _ _ _ _ rfl rfl, rfl, rfl⟩

/-! ## Undefined options and the generate URL -/

/-- Claim C6: an option whose value is undefined produces no token at all
in the query (an undefined entry anywhere in the params record contributes
nothing), while an explicit false is serialized as the literal text
false; generate without symmetrical yields the bare generate URL and
generate with symmetrical false contains symmetrical=false. -/
theorem claim_c6 :
    (∀ (l₁ l₂ : List (String × ParamValue)) (k : String),
        collectParams (l₁ ++ (k, ParamValue.undef) :: l₂) =
          collectParams (l₁ ++ l₂)) ∧
    (∀ config : ClientConfig,
        clientUrl config (Operation.generate { symmetrical := none }) =
          stripTrailingSlashes config.baseUrl ++ "/api/generate") ∧
    (∀ config : ClientConfig,
        clientUrl config (Operation.generate { symmetrical := some false }) =
          stripTrailingSlashes config.baseUrl ++ "/api/generate" ++
            "?symmetrical=false") := by
  refine ⟨?_, ?_, ?_⟩
  · intro l₁ l₂ k
    induction l₁ with
    | nil => rfl
    | cons p l ih =>
      obtain ⟨k', v⟩ := p
      cases v <;> simp [collectParams, ih]
  · intro config
    unfold clientUrl buildUrl
    have h1 : collectParams
        (operationParams (Operation.generate { symmetrical := none })) = [] := rfl
    rw [h1]
    have h2 : paramsToString [] = "" := rfl
    rw [h2, if_pos rfl, String.append_empty]
    rfl
  · intro config
    unfold clientUrl buildUrl
    have h1 : collectParams
        (operationParams (Operation.generate { symmetrical := some false })) =
        [("symmetrical", "false")] := rfl
    rw [h1]
    have h2 : paramsToString [("symmetrical", "false")] = "symmetrical=false" := by
      decide
    rw [h2, if_neg (by decide)]
    rfl

/-! ## Base URL stripping and the outbound GET -/

/-- Dropping slashes from a leading all-slash block. -/
theorem dropWhile_replicate_slash (n : Nat) (r : List Char) :
    List.dropWhile (fun c => decide (c = '/')) (List.replicate n '/' ++ r) =
      List.dropWhile (fun c => decide (c = '/')) r := by
  induction n with
  | zero => rfl
  | succ n ih => simp [List.replicate_succ, List.dropWhile_cons, ih]

/-- Stripping removes exactly the appended trailing slashes from a base
that does not itself end in a slash. -/
theorem stripTrailingSlashes_append_slashes (b : String) (n : Nat)
    (hb : b.data.getLast? ≠ some '/') :
    stripTrailingSlashes (b ++ String.mk (List.replicate n '/')) = b := by
  unfold stripTrailingSlashes
  rw [String.data_append]
  have hdata : (String.mk (List.replicate n '/')).data = List.replicate n '/' := rfl
  rw [hdata, List.reverse_append, List.reverse_replicate, dropWhile_replicate_slash]
  have hdrop : List.dropWhile (fun c => decide (c = '/')) b.data.reverse =
      b.data.reverse := by
    cases hrev : b.data.reverse with
    | nil => rfl
    | cons c cs =>
      have hc : ¬ c = '/' := by
        intro hc
        apply hb
        rw [← List.head?_reverse, hrev]
        simp [hc]
      simp [List.dropWhile_cons, hc]
  rw [hdrop, List.reverse_reverse]

/-- Claim C7: for a base URL with any number of trailing slashes, every
operation's single GET targets exactly the stripped base plus the
endpoint path plus the encoded query behind a question mark when the query
is nonempty (and no question mark when it is empty), and carries exactly
the two default headers. -/
theorem claim_c7 (b : String) (n : Nat) (op : Operation) (config : ClientConfig)
    (hb : b.data.getLast? ≠ some '/')
    (hcfg : config.baseUrl = b ++ String.mk (List.replicate n '/')) :
    (operationQuery op ≠ "" →
      (clientRequest config op).url =
        b ++ endpointOf (createApiConfig config) op ++ ("?" ++ operationQuery op)) ∧
    (operationQuery op = "" →
      (clientRequest config op).url =
        b ++ endpointOf (createApiConfig config) op) ∧
    (clientRequest config op).headers =
      [("Content-Type", "application/json"), ("Accept", "application/json")] := by
  have hbase : (createApiConfig config).BASE_URL = b := by
    show stripTrailingSlashes config.baseUrl = b
    rw [hcfg]
    exact stripTrailingSlashes_append_slashes b n hb
  refine ⟨?_, ?_, rfl⟩
  · intro hq
    simp only [operationQuery] at hq ⊢
    show buildUrl (createApiConfig config)
      (endpointOf (createApiConfig config) op) (operationParams op) = _
    unfold buildUrl
    rw [if_neg hq, hbase]
  · intro hq
    simp only [operationQuery] at hq ⊢
    show buildUrl (createApiConfig config)
      (endpointOf (createApiConfig config) op) (operationParams op) = _
    unfold buildUrl
    rw [if_pos hq, String.append_empty, hbase]

/-- Witness for claim C7: three trailing slashes on the base URL of a
validate call. -/
theorem claim_c7_witness :
    (clientRequest { baseUrl := "http://localhost:5000///", timeout := none }
        (Operation.validate { original := "12" })).url =
      "http://localhost:5000/api/validate?original=12" := by
  have h := claim_c7 "http://localhost:5000" 3
    (Operation.validate { original := "12" })
    { baseUrl := "http://localhost:5000///", timeout := none }
    (by decide) (by decide)
  exact (h.1 (by decide)).trans (by decide)

/-! ## Query keys and stale times -/

/-- Claim C8: each cache-key factory is a deterministic function of the
operation name and its exact inputs: equal inputs give equal keys, any
input change gives a distinct key, and keys of different operations are
never equal. -/
theorem claim_c8 :
    (∀ o₁ o₂ : SolveOptions,
        queryKeys_solver_solve o₁ = queryKeys_solver_solve o₂ ↔ o₁ = o₂) ∧
    (∀ s₁ s₂ : String,
        queryKeys_solver_validate s₁ = queryKeys_solver_validate s₂ ↔ s₁ = s₂) ∧
    (∀ g₁ g₂ : Option GenerateOptions,
        queryKeys_solver_generate g₁ = queryKeys_solver_generate g₂ ↔ g₁ = g₂) ∧
    (∀ (o : SolveOptions) (s : String),
        queryKeys_solver_solve o ≠ queryKeys_solver_validate s) ∧
    (∀ (o : SolveOptions) (g : Option GenerateOptions),
        queryKeys_solver_solve o ≠ queryKeys_solver_generate g) ∧
    (∀ (s : String) (g : Option GenerateOptions),
        queryKeys_solver_validate s ≠ queryKeys_solver_generate g) := by
  refine ⟨fun o₁ o₂ => ?_, fun s₁ s₂ => ?_, fun g₁ g₂ => ?_,
    fun o s => ?_, fun o g => ?_, fun s g => ?_⟩ <;>
    simp [queryKeys_solver_solve, queryKeys_solver_validate,
      queryKeys_solver_generate, solverBase]

/-- Witness for claim C8: determinism and cross-operation distinctness at
concrete inputs. -/
theorem claim_c8_witness :
    queryKeys_solver_solve ⟨"a", "b", none, none, none⟩ =
      queryKeys_solver_solve ⟨"a", "b", none, none, none⟩ ∧
    queryKeys_solver_validate "x" ≠
      queryKeys_solver_generate (some ⟨none⟩) :=
  ⟨(claim_c8.1 _ _).mpr rfl, claim_c8.2.2.2.2.2 "x" (some ⟨none⟩)⟩

/-- Claim C9: generate always stale (zero), validate strictly longer
fresh than solve, solve strictly positive; each hook passes its constant
as the default staleTime. -/
theorem claim_c9 :
    STALE_TIMES.GENERATE = 0 ∧
    STALE_TIMES.SOLVE < STALE_TIMES.VALIDATE ∧
    0 < STALE_TIMES.SOLVE ∧
    (∀ o : SolveOptions, (useSolverSolve o).staleTime = STALE_TIMES.SOLVE) ∧
    (∀ o : ValidateOptions,
        (useSolverValidate o).staleTime = STALE_TIMES.VALIDATE) ∧
    (∀ o : GenerateOptions,
        (useSolverGenerate o).staleTime = STALE_TIMES.GENERATE) :=
  ⟨rfl, by decide, by decide, fun _ => rfl, fun _ => rfl, fun _ => rfl⟩

/-- Claim C10: every operation cache key begins with the one-element base
key, which is exactly what getServiceKeys returns. -/
theorem claim_c10 :
    getServiceKeys = solverBase ∧
    (∀ o : SolveOptions, getServiceKeys <+: queryKeys_solver_solve o) ∧
    (∀ s : String, getServiceKeys <+: queryKeys_solver_validate s) ∧
    (∀ g : Option GenerateOptions,
        getServiceKeys <+: queryKeys_solver_generate g) :=
  ⟨rfl,
   fun o => ⟨[QueryKeyPart.str "solve", QueryKeyPart.solveOptions o], rfl⟩,
   fun s => ⟨[QueryKeyPart.str "validate", QueryKeyPart.str s], rfl⟩,
   fun g => ⟨[QueryKeyPart.str "generate", QueryKeyPart.generateOptions g], rfl⟩⟩
